import Mathlib

/-! Verification of the Mask repository's router / search / scrape /
coordinator pipeline, shallowly embedded in Lean.

Python strings are modelled as `List Char` (a sequence of code points;
case conversion is modelled on the ASCII fragment).  LLM chat calls and
network fetches are modelled as explicit oracle parameters, with
`Except Unit` capturing the raised-exception case. -/

namespace Mask

/-- Python `str` modelled as a list of characters (code points). -/
abbrev PyStr := List Char

/-- `str.upper()` (ASCII fragment of Python's Unicode case mapping). -/
def pyUpper (s : PyStr) : PyStr := s.map Char.toUpper

/-- `str.lower()` (ASCII fragment of Python's Unicode case mapping). -/
def pyLower (s : PyStr) : PyStr := s.map Char.toLower

/-- `str.strip()`: remove leading and trailing whitespace. -/
def pyStrip (s : PyStr) : PyStr :=
  ((s.dropWhile Char.isWhitespace).reverse.dropWhile Char.isWhitespace).reverse

/-- Python's `needle in hay` substring test. -/
def pyContains (hay needle : PyStr) : Bool := decide (needle <:+: hay)

/-- Outcome of one LLM chat call: `.error` models a raised exception,
`.ok content` models a reply whose `content` field is the given string
(a missing `content` key is the reply `.ok []`). -/
abbrev LLMReply := Except Unit PyStr

/-- `SearchAgent.should_search` (src/core/agents/search_agent.py, lines
56-68): take the reply content, `strip().upper()`, and answer whether
`"YES"` occurs in it; any exception from the model call yields `False`. -/
def should_search (reply : LLMReply) : Bool :=
  match reply with
  | .error _ => false
  | .ok content => pyContains (pyUpper (pyStrip content)) ['Y', 'E', 'S']

/-! ### The router's URL regex

`router_node` scans the query with the regex
`https?://(?:[-\w.]|(?:%[\da-fA-F]{2}))+[^\s]*` via `re.findall`, which
returns the non-overlapping matches left to right.  Since every character
accepted by the first character class is also accepted by `[^\s]`, a match
starting at a given position exists iff the text starts with `http://` or
`https://` followed by at least one repetition of the class
(`[-\w.]` or a `%hh` escape), and the greedy match then extends to the
first whitespace character (or the end of the string). -/

/-- One character of the regex class `[-\w.]` (ASCII `\w`). -/
def isClass1 (c : Char) : Bool :=
  c = '-' || c.isAlpha || c.isDigit || c = '_' || c = '.'

/-- One character of the regex class `[\da-fA-F]`. -/
def isHexDigit (c : Char) : Bool :=
  c.isDigit || ('a' ≤ c && c ≤ 'f') || ('A' ≤ c && c ≤ 'F')

/-- Does `(?:[-\w.]|(?:%[\da-fA-F]{2}))` match at least once at the front? -/
def repOk : PyStr → Bool
  | [] => false
  | c :: rest =>
    if isClass1 c then true
    else if c = '%' then
      match rest with
      | h1 :: h2 :: _ => isHexDigit h1 && isHexDigit h2
      | _ => false
    else false

/-- Length of the regex match starting exactly at the front of `s`
(`none` when the regex does not match at this position).  The length is
`(length of the scheme part) + (distance to the first whitespace)`. -/
def matchUrlLen (s : PyStr) : Option Nat :=
  match s with
  | 'h' :: 't' :: 't' :: 'p' :: 's' :: ':' :: '/' :: '/' :: r =>
    if repOk r then some (8 + (r.takeWhile (fun c => !c.isWhitespace)).length)
    else none
  | 'h' :: 't' :: 't' :: 'p' :: ':' :: '/' :: '/' :: r =>
    if repOk r then some (7 + (r.takeWhile (fun c => !c.isWhitespace)).length)
    else none
  | _ => none

/-- The scan of `re.findall`, with explicit fuel so that it is structural
(each step consumes at least one character, so `s.length` fuel is always
enough; see `findUrlsGo_congr`).  After a match of length `n` on
`c :: rest` the scan resumes at `rest.drop (n - 1)` (= `(c :: rest).drop n`,
non-overlapping matches); otherwise it advances one character. -/
def findUrlsGo : Nat → PyStr → List PyStr
  | 0, _ => []
  | _, [] => []
  | fuel + 1, c :: rest =>
    match matchUrlLen (c :: rest) with
    | some n => (c :: rest).take n :: findUrlsGo fuel (rest.drop (n - 1))
    | none => findUrlsGo fuel rest

/-- `re.findall(url_pattern, s)`: non-overlapping matches, left to right. -/
def findUrls (s : PyStr) : List PyStr := findUrlsGo s.length s

theorem matchUrlLen_pos (s : PyStr) (n : Nat) (h : matchUrlLen s = some n) :
    1 ≤ n := by
  unfold matchUrlLen at h
  split at h
  · split at h
    · rw [Option.some_inj] at h
      omega
    · exact absurd h (by simp)
  · split at h
    · rw [Option.some_inj] at h
      omega
    · exact absurd h (by simp)
  · exact absurd h (by simp)

theorem findUrlsGo_nil (fuel : Nat) : findUrlsGo fuel [] = [] := by
  cases fuel <;> rfl

/-- The scan's result does not depend on the fuel, as long as the fuel
covers the string length: `findUrls` computes the full scan. -/
theorem findUrlsGo_congr : ∀ (f₁ f₂ : Nat) (s : PyStr),
    s.length ≤ f₁ → s.length ≤ f₂ → findUrlsGo f₁ s = findUrlsGo f₂ s
  | 0, f₂, s, h1, _ => by
    have : s = [] := by
      cases s with
      | nil => rfl
      | cons c r => simp at h1
    rw [this, findUrlsGo_nil, findUrlsGo_nil]
  | f + 1, f₂, s, h1, h2 => by
    match s, f₂ with
    | [], _ => rw [findUrlsGo_nil, findUrlsGo_nil]
    | c :: rest, 0 => simp at h2
    | c :: rest, g + 1 =>
      simp only [List.length_cons] at h1 h2
      cases hm : matchUrlLen (c :: rest) with
      | none =>
        simp only [findUrlsGo, hm]
        exact findUrlsGo_congr f g rest (by omega) (by omega)
      | some n =>
        have hn := matchUrlLen_pos _ _ hm
        simp only [findUrlsGo, hm]
        rw [findUrlsGo_congr f g (rest.drop (n - 1))
          (by rw [List.length_drop]; omega)
          (by rw [List.length_drop]; omega)]

/-- Result of `MaskWorkflow.router_node`: the state fields the router
writes.  `urls_to_scrape = none` models the field being left unset. -/
structure RouterResult where
  urls_to_scrape : Option (List PyStr)
  needs_search : Bool
  direct_scrape : Bool
  deriving DecidableEq

/-- `MaskWorkflow.router_node` (src/core/graph/workflow.py, lines 59-91):
if the URL regex finds any match in the query, set `urls_to_scrape`,
`needs_search := false`, `direct_scrape := true` and return; otherwise ask
the classifier (`should_search`) and set `direct_scrape := false`.
`classifierReply` is the oracle for the (only) LLM call. -/
def router_node (user_query : PyStr) (classifierReply : LLMReply) : RouterResult :=
  let direct_urls := findUrls user_query
  if direct_urls.isEmpty then
    { urls_to_scrape := none
      needs_search := should_search classifierReply
      direct_scrape := false }
  else
    { urls_to_scrape := some direct_urls
      needs_search := false
      direct_scrape := true }

/-- Spec-side notion for C2: the reply content contains `"YES"`
case-insensitively. -/
def containsYesCI (content : PyStr) : Bool :=
  pyContains (pyUpper content) ['Y', 'E', 'S']

/-! ### `SearchAgent.extract_search_queries` (search_agent.py, lines 70-124) -/

/-- Python's `s.split(sep, 1)[-1]`: everything after the first occurrence
of `sep`, or `s` itself when `sep` does not occur. -/
def splitDrop (sep : Char) (s : PyStr) : PyStr :=
  if sep ∈ s then (s.dropWhile (fun c => c != sep)).tail else s

/-- One iteration of the line-parsing loop:
`clean = line.strip().replace('*', '').replace('"', '')`; if `clean` is
nonempty and starts with a digit or `'-'`, the stored query is
`clean.split('.', 1)[-1].split('-', 1)[-1].strip()` provided it is
nonempty. -/
def parseQueryLine (line : PyStr) : Option PyStr :=
  let clean := (pyStrip line).filter (fun c => c != '*' && c != '"')
  match clean with
  | [] => none
  | c0 :: _ =>
    if c0.isDigit || c0 = '-' then
      if (pyStrip (splitDrop '-' (splitDrop '.' clean))).isEmpty then none
      else some (pyStrip (splitDrop '-' (splitDrop '.' clean)))
    else none

/-- `SearchAgent.extract_search_queries`: split the stripped reply on
newlines, parse each line, and fall back to `[user_query]` when no line
parses or the model call raises. -/
def extract_search_queries (reply : LLMReply) (user_query : PyStr) : List PyStr :=
  match reply with
  | .error _ => [user_query]
  | .ok response =>
    let queries := ((pyStrip response).splitOn '\n').filterMap parseQueryLine
    if queries.isEmpty then [user_query] else queries

/-! ### `SearchAgent.search` and `SearchAgent.search_multiple`
(search_agent.py, lines 126-174) -/

/-- One DuckDuckGo search result (title / url / snippet). -/
structure SearchResult where
  title : PyStr
  url : PyStr
  snippet : PyStr
  deriving DecidableEq

/-- Outcome of `self.ddgs.text(query, ...)` for one query: either a raised
exception or the list of results (already shaped as `SearchResult`s). -/
abbrev SearchOracle := PyStr → Except Unit (List SearchResult)

/-- `SearchAgent.search`: run the engine; any exception yields `[]`. -/
def search (oracle : SearchOracle) (query : PyStr) : List SearchResult :=
  match oracle query with
  | .ok results => results
  | .error _ => []

/-- Inner loop of `search_multiple` over one query's results: append each
result whose URL was not seen yet, recording its URL as seen. -/
def smInner : List SearchResult → List SearchResult → List PyStr →
    List SearchResult × List PyStr
  | [], all_results, seen_urls => (all_results, seen_urls)
  | r :: rest, all_results, seen_urls =>
    if r.url ∈ seen_urls then smInner rest all_results seen_urls
    else smInner rest (all_results ++ [r]) (r.url :: seen_urls)

/-- Outer loop of `search_multiple` over the queries, threading the
accumulated results and the seen-URL set. -/
def smOuter (oracle : SearchOracle) :
    List PyStr → List SearchResult → List PyStr → List SearchResult
  | [], all_results, _ => all_results
  | q :: qs, all_results, seen_urls =>
    let p := smInner (search oracle q) all_results seen_urls
    smOuter oracle qs p.1 p.2

/-- `SearchAgent.search_multiple`: search every query in order,
deduplicating by exact URL across all results. -/
def search_multiple (oracle : SearchOracle) (queries : List PyStr) :
    List SearchResult :=
  smOuter oracle queries [] []

/-- Spec-side first-occurrence deduplication by URL: keep a result iff its
URL is neither in `seen` nor the URL of an earlier kept result. -/
def dedupByUrl : List SearchResult → List PyStr → List SearchResult
  | [], _ => []
  | r :: rest, seen =>
    if r.url ∈ seen then dedupByUrl rest seen
    else r :: dedupByUrl rest (r.url :: seen)

/-- Seen-URL set after scanning a result list (mirrors `dedupByUrl`). -/
def seenAfter : List SearchResult → List PyStr → List PyStr
  | [], seen => seen
  | r :: rest, seen =>
    if r.url ∈ seen then seenAfter rest seen
    else seenAfter rest (r.url :: seen)

/-! ### `ScraperAgent` (src/core/agents/scraper_agent.py) -/

/-- `ScrapedContent` (scraper_agent.py, lines 10-16). -/
structure ScrapedContent where
  url : PyStr
  title : PyStr
  content : PyStr
  links : List PyStr
  error : Option PyStr
  deriving DecidableEq

/-- Python truthiness of the `Optional[str]` field `error`:
`None` and `""` are falsy, every other string is truthy. -/
def optTruthy : Option PyStr → Bool
  | none => false
  | some s => !s.isEmpty

/-- Truncation step of `scrape_url` (scraper_agent.py, lines 102-104):
`if len(clean_text) > 20000: clean_text = clean_text[:20000] + "...[truncated]"`. -/
def truncateContent (clean_text : PyStr) : PyStr :=
  if 20000 < clean_text.length then
    clean_text.take 20000 ++ "...[truncated]".toList
  else clean_text

/-! #### Link extraction in `scrape_url` (lines 62-71)

`urljoin` (full RFC 3986 reference resolution) is taken as an abstract
resolution function `join` for the page being scraped; `urlparse` is
embedded below for the two components the filter reads (`scheme`, lowered,
and `netloc`, the authority part after `scheme://` up to the first
`/`, `?` or `#`).  CPython stores the kept links in a `set`, whose
iteration order is hash-dependent; the embedding accumulates first
occurrences in a list, and only order-insensitive properties of that list
(membership, number of elements) are faithful to the code. -/

/-- Split off a leading `scheme ++ "://"`, returning the scheme and the
remainder (`none` when the string has no `"://"`). -/
def breakScheme : PyStr → Option (PyStr × PyStr)
  | [] => none
  | ':' :: '/' :: '/' :: r => some ([], r)
  | c :: rest =>
    match breakScheme rest with
    | some (s, r) => some (c :: s, r)
    | none => none

/-- The `(scheme, netloc)` components of `urllib.parse.urlparse`, for
strings of the shape `scheme://netloc/...`; anything else has neither a
scheme of the form `http(s)` nor a netloc. -/
def urlparseLite (u : PyStr) : PyStr × PyStr :=
  match breakScheme u with
  | some (s, r) =>
    (pyLower s, r.takeWhile (fun c => c != '/' && c != '?' && c != '#'))
  | none => ([], [])

/-- `set.add`, modelled on a first-occurrence list. -/
def addToSet (s : List PyStr) (x : PyStr) : List PyStr :=
  if x ∈ s then s else s ++ [x]

/-- The link-collection loop of `scrape_url`: for each href (in document
order) resolve it against the page URL, keep it when its netloc equals the
page's netloc and its scheme is `http` or `https`, and add it — with the
fragment (`'#'` and beyond) removed — to the set of links. -/
def extractLinks (join : PyStr → PyStr) (base_domain : PyStr)
    (hrefs : List PyStr) : List PyStr :=
  hrefs.foldl (fun links href =>
    let full_url := join href
    let parsed := urlparseLite full_url
    if parsed.2 = base_domain ∧
        (parsed.1 = "http".toList ∨ parsed.1 = "https".toList) then
      addToSet links (full_url.takeWhile (fun c => c != '#'))
    else links) []

/-- Spec-side reading of C7: the qualifying link targets listed in the
order the hrefs appear in the page, one entry per occurrence. -/
def claimLinkTargets (join : PyStr → PyStr) (base_domain : PyStr)
    (hrefs : List PyStr) : List PyStr :=
  hrefs.filterMap (fun href =>
    let full_url := join href
    let parsed := urlparseLite full_url
    if parsed.2 = base_domain ∧
        (parsed.1 = "http".toList ∨ parsed.1 = "https".toList) then
      some (full_url.takeWhile (fun c => c != '#'))
    else none)

/-! #### `extract_relevant_content` (scraper_agent.py, lines 211-253) -/

/-- `ScraperAgent.extract_relevant_content`: empty result for pages with a
truthy `error` or empty `content`; otherwise the stripped reply of the
model, and on a model exception the first 1000 characters of the raw
scraped content. -/
def extract_relevant_content (llmReply : LLMReply) (scraped : ScrapedContent) :
    PyStr :=
  if optTruthy scraped.error || scraped.content.isEmpty then []
  else
    match llmReply with
    | .ok content => pyStrip content
    | .error _ => scraped.content.take 1000

/-! #### The filtering loop of `scrape_node` (workflow.py, lines 173-199) -/

/-- The relevance-extraction model calls, one per page: which reply the
LLM gives for a given scraped page. -/
abbrev ExtractOracle := ScrapedContent → LLMReply

/-- The per-page loop of `scrape_node`: skip pages with a truthy `error`;
otherwise run `extract_relevant_content` and, when the extraction is
nonempty and does not contain `"no relevant"` case-insensitively, record
`"From {title} ({url}):\n{relevant}"` and the `(title, url)` source pair. -/
def scrapeFilter (oracle : ExtractOracle) :
    List ScrapedContent → List PyStr × List (PyStr × PyStr)
  | [] => ([], [])
  | content :: rest =>
    let tail := scrapeFilter oracle rest
    if optTruthy content.error then tail
    else
      let relevant := extract_relevant_content (oracle content) content
      if !relevant.isEmpty && !pyContains (pyLower relevant) "no relevant".toList then
        (("From ".toList ++ content.title ++ " (".toList ++ content.url ++
            "):\n".toList ++ relevant) :: tail.1,
          (content.title, content.url) :: tail.2)
      else tail

/-- Tail of `scrape_node` (workflow.py, lines 188-197): join the included
excerpts with the separator into `web_context` (empty `web_context` and
`sources` when nothing was included). -/
def scrape_node_context (oracle : ExtractOracle) (scraped : List ScrapedContent) :
    PyStr × List (PyStr × PyStr) :=
  let p := scrapeFilter oracle scraped
  if p.1.isEmpty then ([], [])
  else (List.intercalate "\n\n---\n\n".toList p.1, p.2)

/-- The predicate under which `scrape_node` includes a page (matches
`scrapeFilter`): falsy `error`, nonempty extraction, and the lowered
extraction does not contain `"no relevant"`. -/
def includedPage (oracle : ExtractOracle) (c : ScrapedContent) : Bool :=
  !optTruthy c.error &&
    (let relevant := extract_relevant_content (oracle c) c
     !relevant.isEmpty && !pyContains (pyLower relevant) "no relevant".toList)

/-! ### `MaskWorkflow.coordinator_node` (workflow.py, lines 201-303)

The node concatenates text blocks onto a base system prompt.  The
embedding abstracts each block to a tag (keeping its data), preserving
exactly the conditions and the order under which the code appends them. -/

/-- One block of the synthesized system prompt. -/
inductive PromptSection where
  | base
  | webContextBlock (ctx : PyStr)
  | noWebInfo
  | unreadableUrl
  | memoryBlock (m : PyStr)
  | toolCatalogue (tools : List PyStr)
  | toolRules
  deriving DecidableEq

/-- The state fields `coordinator_node` reads when assembling the prompt
(`tools` is `tool_registry.list_tools()`; absent state keys are the falsy
defaults). -/
structure CoordState where
  web_context : PyStr
  search_performed : Bool
  direct_scrape : Bool
  memory_context : PyStr
  tools : List PyStr
  deriving DecidableEq

/-- The sections of the system prompt assembled by `coordinator_node`, in
order: the base prompt; then (`if`/`elif`/`elif`) the web-context block,
the no-web-info block, or the unreadable-URL block; then the memory block
when `memory_context` is truthy; then the tool catalogue when at least one
tool is registered; then — unconditionally — the tool-usage rules block. -/
def coordinator_sections (st : CoordState) : List PromptSection :=
  [PromptSection.base]
    ++ (if !st.web_context.isEmpty then [PromptSection.webContextBlock st.web_context]
        else if st.search_performed then [PromptSection.noWebInfo]
        else if st.direct_scrape && st.web_context.isEmpty then [PromptSection.unreadableUrl]
        else [])
    ++ (if !st.memory_context.isEmpty then [PromptSection.memoryBlock st.memory_context]
        else [])
    ++ (if !st.tools.isEmpty then [PromptSection.toolCatalogue st.tools] else [])
    ++ [PromptSection.toolRules]

/-! ### `ScraperAgent.crawl` (scraper_agent.py, lines 135-203)

`scrape_url`'s network fetch is an oracle `fetch` giving, per URL, the
title, content, links and error of the returned `ScrapedContent` (the
code always sets the result's `url` field to the requested URL).  A
Python-level exception from a gathered task is modelled through the
`error` field: both skip the item, append nothing to `results` and enqueue
no links.  The embedding additionally threads a ghost `log` recording
every URL handed to `scrape_url`, so that "each URL is fetched at most
once" is statable. -/

/-- What the network/parse side of `scrape_url` yields for one URL. -/
structure FetchResult where
  title : PyStr
  content : PyStr
  links : List PyStr
  error : Option PyStr

/-- The fetch oracle: one `FetchResult` per URL. -/
abbrev FetchOracle := PyStr → FetchResult

/-- `scrape_url` seen through the fetch oracle. -/
def scrapeWith (fetch : FetchOracle) (url : PyStr) : ScrapedContent :=
  let r := fetch url
  { url := url, title := r.title, content := r.content
    links := r.links, error := r.error }

/-- The batch-collection inner `while` of `crawl` (lines 161-167): pop
queue entries while the batch has fewer than 3 entries and
`len(results) + len(batch) < max_pages`, skipping already-visited URLs and
marking the batch's URLs visited.  Returns (batch, visited, queue). -/
def collectBatch (resLen maxPages : Nat) :
    List (PyStr × Nat) → List PyStr → List (PyStr × Nat) →
    List (PyStr × Nat) × List PyStr × List (PyStr × Nat)
  | [], visited, batch => (batch, visited, [])
  | (u, d) :: rest, visited, batch =>
    if batch.length < 3 ∧ resLen + batch.length < maxPages then
      if u ∈ visited then collectBatch resLen maxPages rest visited batch
      else collectBatch resLen maxPages rest (u :: visited) (batch ++ [(u, d)])
    else (batch, visited, (u, d) :: rest)

/-- The per-batch processing loop (lines 176-201): scrape each batch
entry; skip items with a truthy `error`; append successes to the results
and, when the entry's depth is below `max_depth`, enqueue the item's links
that are not yet visited, at depth + 1.  Returns the appended results and
the appended queue entries, in order. -/
def processBatch (fetch : FetchOracle) (maxDepth : Nat) (visited : List PyStr) :
    List (PyStr × Nat) → List ScrapedContent × List (PyStr × Nat)
  | [] => ([], [])
  | (u, d) :: rest =>
    let item := scrapeWith fetch u
    let tail := processBatch fetch maxDepth visited rest
    if optTruthy item.error then tail
    else
      let newQ :=
        if d < maxDepth then
          (item.links.filter (fun l => l ∉ visited)).map (fun l => (l, d + 1))
        else []
      (item :: tail.1, newQ ++ tail.2)

theorem processBatch_len (fetch : FetchOracle) (maxDepth : Nat)
    (visited : List PyStr) (batch : List (PyStr × Nat)) :
    (processBatch fetch maxDepth visited batch).1.length ≤ batch.length := by
  induction batch with
  | nil => simp [processBatch]
  | cons hd tl ih =>
    obtain ⟨u, d⟩ := hd
    simp only [processBatch]
    split
    · exact Nat.le_succ_of_le ih
    · simpa using Nat.succ_le_succ ih

theorem processBatch_nil_of_results_nil (fetch : FetchOracle) (maxDepth : Nat)
    (visited : List PyStr) (batch : List (PyStr × Nat))
    (h : (processBatch fetch maxDepth visited batch).1 = []) :
    (processBatch fetch maxDepth visited batch).2 = [] := by
  induction batch with
  | nil => simp [processBatch]
  | cons hd tl ih =>
    obtain ⟨u, d⟩ := hd
    simp only [processBatch] at h ⊢
    split at h
    · rename_i herr
      simp only [processBatch, herr, if_pos] at *
      exact ih h
    · simp at h

theorem collectBatch_queue_len (resLen maxPages : Nat) :
    ∀ (queue : List (PyStr × Nat)) (visited : List PyStr)
      (batch : List (PyStr × Nat)),
      (collectBatch resLen maxPages queue visited batch).2.2.length +
        (collectBatch resLen maxPages queue visited batch).1.length ≤
        queue.length + batch.length
  | [], visited, batch => by simp [collectBatch]
  | (u, d) :: rest, visited, batch => by
    simp only [collectBatch]
    split
    · split
      · have := collectBatch_queue_len resLen maxPages rest visited batch
        simp only [List.length_cons]
        omega
      · have := collectBatch_queue_len resLen maxPages rest (u :: visited)
          (batch ++ [(u, d)])
        simp only [List.length_cons, List.length_append, List.length_nil] at this ⊢
        omega
    · simp

/-- The outer `while` of `crawl` (lines 155-202): loop while the queue is
nonempty and fewer than `max_pages` results were collected; collect a
batch; stop when the batch is empty; otherwise process it and continue
with the extended queue, visited set, results and fetch log.  Termination
is by the lexicographic measure
`(max_pages - len(results), len(queue))`: a batch producing at least one
result decreases the first component, and a batch producing none enqueues
nothing while the queue lost at least the batch. -/
def crawlLoop (fetch : FetchOracle) (maxDepth maxPages : Nat)
    (queue : List (PyStr × Nat)) (visited : List PyStr)
    (results : List ScrapedContent) (log : List PyStr) :
    List ScrapedContent × List PyStr :=
  if queue.isEmpty ∨ maxPages ≤ results.length then (results, log)
  else
    let cb := collectBatch results.length maxPages queue visited []
    if cb.1.isEmpty then (results, log)
    else
      let pb := processBatch fetch maxDepth cb.2.1 cb.1
      crawlLoop fetch maxDepth maxPages (cb.2.2 ++ pb.2) cb.2.1
        (results ++ pb.1) (log ++ cb.1.map Prod.fst)
termination_by (maxPages - results.length, queue.length)
decreasing_by
  rename_i h hb
  simp only [List.isEmpty_iff, not_or, Nat.not_le] at h hb
  by_cases hres :
      (processBatch fetch maxDepth
        (collectBatch results.length maxPages queue visited []).2.1
        (collectBatch results.length maxPages queue visited []).1).1 = []
  · have hq := processBatch_nil_of_results_nil fetch maxDepth
      (collectBatch results.length maxPages queue visited []).2.1
      (collectBatch results.length maxPages queue visited []).1 hres
    have hcb := collectBatch_queue_len results.length maxPages queue visited []
    have hb1 :
        1 ≤ (collectBatch results.length maxPages queue visited []).1.length := by
      cases hcb1 : (collectBatch results.length maxPages queue visited []).1 with
      | nil => exact absurd hcb1 hb
      | cons a l => simp
    rw [hres, hq, List.append_nil, List.append_nil]
    apply Prod.Lex.right
    simp only [List.length_nil] at hcb
    omega
  · apply Prod.Lex.left
    have : 1 ≤ (processBatch fetch maxDepth
        (collectBatch results.length maxPages queue visited []).2.1
        (collectBatch results.length maxPages queue visited []).1).1.length := by
      cases hres2 : (processBatch fetch maxDepth
          (collectBatch results.length maxPages queue visited []).2.1
          (collectBatch results.length maxPages queue visited []).1).1 with
      | nil => exact absurd hres2 hres
      | cons a l => simp
    simp only [List.length_append]
    omega

/-- `ScraperAgent.crawl` together with its ghost fetch log: the list of
returned pages and the sequence of URLs handed to `scrape_url`, in order. -/
def crawlWithLog (fetch : FetchOracle) (start_url : PyStr)
    (maxDepth maxPages : Nat) : List ScrapedContent × List PyStr :=
  crawlLoop fetch maxDepth maxPages [(start_url, 0)] [] [] []

/-- `ScraperAgent.crawl` itself (the returned `results` list). -/
def crawl (fetch : FetchOracle) (start_url : PyStr)
    (maxDepth maxPages : Nat) : List ScrapedContent :=
  (crawlWithLog fetch start_url maxDepth maxPages).1

/-! ## Theorems -/

/-- C9: content longer than the 20000-character ceiling is stored as the
first 20000 characters followed by the marker `"...[truncated]"`, so it
ends with the marker and has length `20000 + 14`; content of length at
most 20000 is stored unchanged. -/
theorem truncate_content_spec (s : PyStr) :
    (20000 < s.length →
      (truncateContent s).length = 20000 + 14 ∧
      "...[truncated]".toList <:+ truncateContent s) ∧
    (s.length ≤ 20000 → truncateContent s = s) := by
  have hm : ("...[truncated]".toList).length = 14 := by decide
  constructor
  · intro h
    unfold truncateContent
    rw [if_pos h]
    refine ⟨?_, List.suffix_append _ _⟩
    rw [List.length_append, List.length_take, hm]
    omega
  · intro h
    unfold truncateContent
    rw [if_neg (by omega)]

/-- Witness for C9 at a concrete 20001-character content. -/
theorem truncate_content_spec_witness :
    20000 < (List.replicate 20001 'a').length ∧
    ((truncateContent (List.replicate 20001 'a')).length = 20000 + 14 ∧
      "...[truncated]".toList <:+ truncateContent (List.replicate 20001 'a')) :=
  ⟨by rw [List.length_replicate]; omega,
    (truncate_content_spec (List.replicate 20001 'a')).1
      (by rw [List.length_replicate]; omega)⟩

/-- C8 counterexample: with no tool registered, `coordinator_node` still
appends the tool-usage-rules block (the `IMPORTANT TOOL USAGE RULES` text
is added outside the `if tools:` guard), contradicting the claim that the
tool catalogue *together with its usage constraints* appears only when at
least one tool is registered. -/
theorem coordinator_tool_rules_counterexample :
    (CoordState.mk [] false false [] []).tools = [] ∧
    PromptSection.toolRules ∈
      coordinator_sections (CoordState.mk [] false false [] []) := by
  decide

/-- C8 (amended): the web-context block appears iff `web_context` is
nonempty; the no-web-info block iff `web_context` is empty and search was
performed; the unreadable-URL block iff `web_context` is empty, search was
not performed and `direct_scrape` is set (in particular only when
`direct_scrape` holds with empty `web_context`, as claimed); the memory
block iff `memory_context` is nonempty; the tool catalogue iff at least
one tool is registered; but the tool-usage-rules block is appended
unconditionally. -/
theorem coordinator_sections_spec (st : CoordState) :
    ((∃ c, PromptSection.webContextBlock c ∈ coordinator_sections st) ↔
      st.web_context ≠ []) ∧
    (PromptSection.noWebInfo ∈ coordinator_sections st ↔
      st.web_context = [] ∧ st.search_performed = true) ∧
    (PromptSection.unreadableUrl ∈ coordinator_sections st ↔
      st.web_context = [] ∧ st.search_performed = false ∧
        st.direct_scrape = true) ∧
    ((∃ m, PromptSection.memoryBlock m ∈ coordinator_sections st) ↔
      st.memory_context ≠ []) ∧
    ((∃ ts, PromptSection.toolCatalogue ts ∈ coordinator_sections st) ↔
      st.tools ≠ []) ∧
    PromptSection.toolRules ∈ coordinator_sections st := by
  unfold coordinator_sections
  split_ifs <;>
    simp_all only [Bool.not_eq_true', Bool.not_eq_false', List.isEmpty_iff,
      List.isEmpty_eq_false, Bool.and_eq_true, List.mem_append,
      List.mem_singleton, List.not_mem_nil, or_false, false_or, exists_eq,
      exists_false, true_and, and_true, reduceCtorEq, and_false, false_and,
      exists_apply_eq_apply, not_not, ne_eq, not_true, not_false_iff,
      iff_true, true_iff, false_iff, iff_false, not_and, not_or]

theorem addToSet_mem (s : List PyStr) (x l : PyStr) :
    l ∈ addToSet s x ↔ l ∈ s ∨ l = x := by
  unfold addToSet
  split
  · rename_i hx
    constructor
    · exact Or.inl
    · rintro (h | rfl)
      · exact h
      · exact hx
  · simp

theorem addToSet_nodup (s : List PyStr) (x : PyStr) (h : s.Nodup) :
    (addToSet s x).Nodup := by
  unfold addToSet
  split
  · exact h
  · rename_i hx
    rw [List.nodup_append]
    refine ⟨h, List.nodup_singleton x, fun a ha hax => ?_⟩
    simp only [List.mem_singleton] at hax
    subst hax
    exact hx ha

theorem extractLinks_go (join : PyStr → PyStr) (base_domain : PyStr) :
    ∀ (hrefs : List PyStr) (acc : List PyStr), acc.Nodup →
      (List.foldl (fun links href =>
        let full_url := join href
        let parsed := urlparseLite full_url
        if parsed.2 = base_domain ∧
            (parsed.1 = "http".toList ∨ parsed.1 = "https".toList) then
          addToSet links (full_url.takeWhile (fun c => c != '#'))
        else links) acc hrefs).Nodup ∧
      ∀ l, l ∈ List.foldl (fun links href =>
        let full_url := join href
        let parsed := urlparseLite full_url
        if parsed.2 = base_domain ∧
            (parsed.1 = "http".toList ∨ parsed.1 = "https".toList) then
          addToSet links (full_url.takeWhile (fun c => c != '#'))
        else links) acc hrefs ↔
        l ∈ acc ∨ l ∈ claimLinkTargets join base_domain hrefs
  | [], acc, hacc => by simp [claimLinkTargets, hacc]
  | href :: t, acc, hacc => by
    simp only [List.foldl_cons]
    by_cases hc : (urlparseLite (join href)).2 = base_domain ∧
        ((urlparseLite (join href)).1 = "http".toList ∨
          (urlparseLite (join href)).1 = "https".toList)
    · have hacc' := addToSet_nodup acc
        ((join href).takeWhile (fun c => c != '#')) hacc
      have ih := extractLinks_go join base_domain t
        (addToSet acc ((join href).takeWhile (fun c => c != '#'))) hacc'
      rw [if_pos hc]
      refine ⟨ih.1, fun l => ?_⟩
      rw [ih.2 l, addToSet_mem]
      simp only [claimLinkTargets, List.filterMap_cons, if_pos hc,
        List.mem_cons]
      tauto
    · have ih := extractLinks_go join base_domain t acc hacc
      rw [if_neg hc]
      refine ⟨ih.1, fun l => ?_⟩
      rw [ih.2 l]
      simp only [claimLinkTargets, List.filterMap_cons, if_neg hc]

/-- C7 counterexample: on a page whose hrefs are, in order, an internal
link, a cross-domain link and the same internal link with a fragment,
the `links` field (a Python `set`) holds ONE element, while the claimed
"targets in order of appearance with fragments removed" list has two —
the set collapses duplicates (and its iteration order is hash-dependent),
so `links` is not that in-order list. -/
theorem extract_links_counterexample :
    extractLinks id "a.com".toList
        ["http://a.com/x".toList, "http://b.com/y".toList,
          "http://a.com/x#f".toList] =
      ["http://a.com/x".toList] ∧
    claimLinkTargets id "a.com".toList
        ["http://a.com/x".toList, "http://b.com/y".toList,
          "http://a.com/x#f".toList] =
      ["http://a.com/x".toList, "http://a.com/x".toList] := by
  decide

/-- C7 (amended): the `links` field of a scrape result holds each
qualifying target (same netloc as the page, scheme `http` or `https`,
fragment removed) exactly once — its membership coincides with the list
of targets in order of appearance, but duplicates are collapsed and the
order of the stored `set` is not specified. -/
theorem extract_links_spec (join : PyStr → PyStr) (base_domain : PyStr)
    (hrefs : List PyStr) :
    (extractLinks join base_domain hrefs).Nodup ∧
    ∀ l, l ∈ extractLinks join base_domain hrefs ↔
      l ∈ claimLinkTargets join base_domain hrefs := by
  have h := extractLinks_go join base_domain hrefs [] List.nodup_nil
  refine ⟨h.1, fun l => ?_⟩
  rw [show extractLinks join base_domain hrefs =
    List.foldl _ [] hrefs from rfl, h.2 l]
  simp

/-- The excerpt `scrape_node` records for an included page. -/
def pagePart (oracle : ExtractOracle) (c : ScrapedContent) : PyStr :=
  "From ".toList ++ c.title ++ " (".toList ++ c.url ++ "):\n".toList ++
    extract_relevant_content (oracle c) c

theorem scrapeFilter_eq (oracle : ExtractOracle) (scraped : List ScrapedContent) :
    scrapeFilter oracle scraped =
      ((scraped.filter (includedPage oracle)).map (pagePart oracle),
        (scraped.filter (includedPage oracle)).map (fun c => (c.title, c.url))) := by
  induction scraped with
  | nil => simp [scrapeFilter]
  | cons c rest ih =>
    have hip : includedPage oracle c =
        (!optTruthy c.error &&
          (!(extract_relevant_content (oracle c) c).isEmpty &&
            !pyContains (pyLower (extract_relevant_content (oracle c) c))
              "no relevant".toList)) := rfl
    simp only [scrapeFilter, List.filter_cons, ih, hip]
    by_cases he : optTruthy c.error
    · simp [he]
    · rw [Bool.not_eq_true] at he
      simp only [he, Bool.not_false, Bool.true_and, Bool.false_eq_true,
        if_false]
      split
      · simp [pagePart]
      · rfl

/-- C4 counterexample: a page whose extraction is *not* the sentinel
phrase (it merely contains the substring `"no relevant"`) is nevertheless
excluded: the code tests `"no relevant" not in relevant.lower()`, a
substring check, not equality with "No relevant information found". -/
theorem scrape_sentinel_counterexample :
    pyLower (extract_relevant_content
        (Except.ok "there is no relevant info about cats, but dogs are discussed here".toList)
        (ScrapedContent.mk "http://e.com/p".toList "T".toList "body".toList [] none)) ≠
      pyLower "No relevant information found".toList ∧
    (scrape_node_context
        (fun _ =>
          Except.ok "there is no relevant info about cats, but dogs are discussed here".toList)
        [ScrapedContent.mk "http://e.com/p".toList "T".toList "body".toList [] none]).2 =
      [] := by
  decide

/-- C4 (amended): `scrape_node` includes exactly the pages with a falsy
`error` whose extraction is nonempty and — case-insensitively — does not
*contain* the substring `"no relevant"` (rather than: does not equal the
sentinel phrase); the included excerpts are joined with the visible
separator `"\n\n---\n\n"` into `web_context`, and `sources` holds one
`(title, url)` pair per included page in the same order, so its length
equals the number of included pages. -/
theorem scrape_node_filter_spec (oracle : ExtractOracle)
    (scraped : List ScrapedContent) :
    (scrape_node_context oracle scraped).2 =
      (scraped.filter (includedPage oracle)).map (fun c => (c.title, c.url)) ∧
    (scrape_node_context oracle scraped).2.length =
      (scraped.filter (includedPage oracle)).length ∧
    (scrape_node_context oracle scraped).1 =
      (if (scraped.filter (includedPage oracle)).isEmpty then []
       else List.intercalate "\n\n---\n\n".toList
        ((scraped.filter (includedPage oracle)).map (pagePart oracle))) := by
  unfold scrape_node_context
  rw [scrapeFilter_eq]
  by_cases hemp : (scraped.filter (includedPage oracle)).isEmpty
  · rw [List.isEmpty_iff] at hemp
    simp [hemp]
  · rw [List.isEmpty_iff] at hemp
    simp [hemp, List.length_map]

/-- C10: when a page scraped without error and with nonempty content hits
a model exception inside `extract_relevant_content`, the function returns
the first 1000 characters of the raw scraped content; when those 1000
characters do not contain the exclusion substring, the raw excerpt flows
into `web_context` and the page is still cited in `sources`. -/
theorem extract_fallback_spec (oracle : ExtractOracle) (P : ScrapedContent)
    (herr : optTruthy P.error = false) (hco : P.content ≠ [])
    (ho : oracle P = Except.error ())
    (hnr : pyContains (pyLower (P.content.take 1000)) "no relevant".toList = false) :
    extract_relevant_content (oracle P) P = P.content.take 1000 ∧
    (scrape_node_context oracle [P]).2 = [(P.title, P.url)] ∧
    (scrape_node_context oracle [P]).1 =
      "From ".toList ++ P.title ++ " (".toList ++ P.url ++ "):\n".toList ++
        P.content.take 1000 := by
  have hie : P.content.isEmpty = false := by
    rw [List.isEmpty_eq_false]
    exact hco
  have h1 : extract_relevant_content (oracle P) P = P.content.take 1000 := by
    unfold extract_relevant_content
    rw [ho, herr, hie]
    simp
  have htake : (P.content.take 1000).isEmpty = false := by
    rw [List.isEmpty_eq_false, Ne, List.take_eq_nil_iff]
    rintro (h | h)
    · omega
    · exact hco h
  have hinc : includedPage oracle P = true := by
    simp only [includedPage, herr, h1, htake, hnr, Bool.not_false,
      Bool.true_and, Bool.and_self]
  have hfilter := scrapeFilter_eq oracle [P]
  rw [List.filter_cons, if_pos hinc, List.filter_nil] at hfilter
  refine ⟨h1, ?_, ?_⟩
  · unfold scrape_node_context
    rw [hfilter]
    simp
  · unfold scrape_node_context
    rw [hfilter]
    simp [List.intercalate, pagePart, h1]

/-- Witness for C10 at a concrete page and a failing model call. -/
theorem extract_fallback_spec_witness :
    (optTruthy (ScrapedContent.mk "u".toList "t".toList "some body".toList [] none).error = false ∧
      (ScrapedContent.mk "u".toList "t".toList "some body".toList [] none).content ≠ [] ∧
      pyContains (pyLower ((ScrapedContent.mk "u".toList "t".toList "some body".toList [] none).content.take 1000))
        "no relevant".toList = false) ∧
    (scrape_node_context (fun _ => Except.error ())
        [ScrapedContent.mk "u".toList "t".toList "some body".toList [] none]).2 =
      [("t".toList, "u".toList)] :=
  ⟨⟨by decide, by decide, by decide⟩,
    (extract_fallback_spec (fun _ => Except.error ())
      (ScrapedContent.mk "u".toList "t".toList "some body".toList [] none)
      (by decide) (by decide) rfl (by decide)).2.1⟩

/-- C6 counterexample: four numbered lines yield four queries (the code
never caps the list at 3), and a query containing a `'-'` is mangled
(`"1. state-of-the-art AI"` is stored as `"of-the-art AI"`: the code cuts
at the first `'.'` and then at the first `'-'` of the remainder, which
here lies inside the query text). -/
theorem extract_queries_counterexample :
    3 < (extract_search_queries
        (Except.ok "1. a\n2. b\n3. c\n4. d".toList) "orig".toList).length ∧
    extract_search_queries (Except.ok "1. state-of-the-art AI".toList)
        "orig".toList = ["of-the-art AI".toList] := by
  decide

/-- C6 (amended): `extract_search_queries` returns at least one query but
enforces no upper bound of 3; a line is parsed when, after `strip()` and
removal of every `'*'` and `'"'`, it starts with a digit or `'-'`; the
stored query drops everything up to the first `'.'` and then up to the
first `'-'` (which can cut into the query text itself) and is stripped;
every stored query is nonempty; an exception or zero parsed lines yields
exactly `[user_query]`. -/
theorem extract_queries_spec (reply : LLMReply) (user_query : PyStr) :
    1 ≤ (extract_search_queries reply user_query).length ∧
    (reply = Except.error () →
      extract_search_queries reply user_query = [user_query]) ∧
    (∀ response, reply = Except.ok response →
      (((pyStrip response).splitOn '\n').filterMap parseQueryLine = [] →
        extract_search_queries reply user_query = [user_query]) ∧
      (((pyStrip response).splitOn '\n').filterMap parseQueryLine ≠ [] →
        extract_search_queries reply user_query =
          ((pyStrip response).splitOn '\n').filterMap parseQueryLine)) ∧
    (∀ line q, parseQueryLine line = some q → q ≠ []) := by
  refine ⟨?_, ?_, ?_, ?_⟩
  · match reply with
    | .error _ => simp [extract_search_queries]
    | .ok response =>
      simp only [extract_search_queries]
      split
      · simp
      · rename_i hne
        rw [Bool.not_eq_true, List.isEmpty_eq_false] at hne
        cases h : ((pyStrip response).splitOn '\n').filterMap parseQueryLine with
        | nil => exact absurd h hne
        | cons a l => simp [h]
  · rintro rfl
    rfl
  · rintro response rfl
    constructor
    · intro h
      simp [extract_search_queries, h]
    · intro h
      rw [← List.isEmpty_eq_false] at h
      simp [extract_search_queries, h]
  · intro line q h
    simp only [parseQueryLine] at h
    split at h
    · exact absurd h (by simp)
    · split at h
      · split at h
        · exact absurd h (by simp)
        · rename_i hq
          rw [Bool.not_eq_true, List.isEmpty_eq_false] at hq
          rw [Option.some_inj] at h
          exact h ▸ hq
      · exact absurd h (by simp)

/-- Witness for C6's amended theorem: a model exception yields exactly
the original query. -/
theorem extract_queries_spec_witness :
    extract_search_queries (Except.error ()) "orig".toList =
      ["orig".toList] :=
  (extract_queries_spec (Except.error ()) "orig".toList).2.1 rfl

theorem smInner_eq : ∀ (rs acc : List SearchResult) (seen : List PyStr),
    smInner rs acc seen = (acc ++ dedupByUrl rs seen, seenAfter rs seen)
  | [], acc, seen => by simp [smInner, dedupByUrl, seenAfter]
  | r :: rest, acc, seen => by
    simp only [smInner, dedupByUrl, seenAfter]
    split
    · exact smInner_eq rest acc seen
    · rw [smInner_eq rest (acc ++ [r]) (r.url :: seen)]
      simp

theorem dedupByUrl_append : ∀ (rs rs' : List SearchResult) (seen : List PyStr),
    dedupByUrl (rs ++ rs') seen =
      dedupByUrl rs seen ++ dedupByUrl rs' (seenAfter rs seen)
  | [], rs', seen => by simp [dedupByUrl, seenAfter]
  | r :: rest, rs', seen => by
    simp only [List.cons_append, dedupByUrl, seenAfter, List.append_eq]
    split
    · exact dedupByUrl_append rest rs' seen
    · rw [dedupByUrl_append rest rs' (r.url :: seen)]
      simp

theorem smOuter_eq (oracle : SearchOracle) :
    ∀ (qs : List PyStr) (acc : List SearchResult) (seen : List PyStr),
      smOuter oracle qs acc seen =
        acc ++ dedupByUrl (qs.flatMap (search oracle)) seen
  | [], acc, seen => by simp [smOuter, dedupByUrl]
  | q :: qs, acc, seen => by
    simp only [smOuter, smInner_eq, List.flatMap_cons, dedupByUrl_append]
    rw [smOuter_eq oracle qs]
    simp

theorem dedupByUrl_nodup : ∀ (rs : List SearchResult) (seen : List PyStr),
    ((dedupByUrl rs seen).map SearchResult.url).Nodup ∧
    ∀ u ∈ (dedupByUrl rs seen).map SearchResult.url, u ∉ seen
  | [], seen => by simp [dedupByUrl]
  | r :: rest, seen => by
    simp only [dedupByUrl]
    split
    · exact dedupByUrl_nodup rest seen
    · rename_i hr
      have ih := dedupByUrl_nodup rest (r.url :: seen)
      simp only [List.map_cons, List.nodup_cons]
      refine ⟨⟨fun hmem => ?_, ih.1⟩, fun u hu => ?_⟩
      · have := ih.2 r.url hmem
        simp at this
      · rw [List.mem_cons] at hu
        rcases hu with rfl | hu
        · exact hr
        · have := ih.2 u hu
          intro hs
          exact this (List.mem_cons_of_mem _ hs)

/-- C5: `search_multiple` returns the concatenation of the per-query
results in query order, keeping only the first occurrence of each URL
(case-sensitive exact match), so each URL occurs exactly once; a query
whose engine call raises contributes zero results and the remaining
queries are still processed. -/
theorem search_multiple_spec (oracle : SearchOracle) (queries : List PyStr) :
    search_multiple oracle queries =
      dedupByUrl (queries.flatMap (search oracle)) [] ∧
    ((search_multiple oracle queries).map SearchResult.url).Nodup ∧
    ∀ (pre post : List PyStr) (q : PyStr), oracle q = Except.error () →
      search_multiple oracle (pre ++ q :: post) =
        search_multiple oracle (pre ++ post) := by
  refine ⟨?_, ?_, ?_⟩
  · unfold search_multiple
    rw [smOuter_eq]
    simp
  · unfold search_multiple
    rw [smOuter_eq]
    simp only [List.nil_append]
    exact (dedupByUrl_nodup _ []).1
  · intro pre post q hq
    unfold search_multiple
    rw [smOuter_eq, smOuter_eq]
    have hnil : search oracle q = [] := by
      unfold search
      rw [hq]
    simp [List.flatMap_append, hnil]

/-- Witness for C5: with every engine call raising, a failing query in the
middle contributes nothing and the others are still processed. -/
theorem search_multiple_spec_witness :
    search_multiple (fun _ => Except.error ())
        (["a".toList] ++ "b".toList :: []) =
      search_multiple (fun _ => Except.error ()) (["a".toList] ++ []) :=
  (search_multiple_spec (fun _ => Except.error ()) []).2.2
    ["a".toList] [] "b".toList rfl

theorem toUpper_of_whitespace (c : Char) (h : c.isWhitespace = true) :
    c.toUpper = c := by
  simp only [Char.isWhitespace, Bool.or_eq_true, decide_eq_true_eq] at h
  rcases h with ((h | h) | h) | h <;> subst h <;> decide

/-- `strip` removes a run of whitespace at each end: `s` decomposes as
all-whitespace prefix, `pyStrip s`, all-whitespace suffix. -/
theorem strip_decomp (s : PyStr) :
    ∃ w₁ w₂ : PyStr, (∀ c ∈ w₁, c.isWhitespace = true) ∧
      (∀ c ∈ w₂, c.isWhitespace = true) ∧
      s = w₁ ++ pyStrip s ++ w₂ := by
  refine ⟨s.takeWhile Char.isWhitespace,
    ((s.dropWhile Char.isWhitespace).reverse.takeWhile Char.isWhitespace).reverse,
    fun c hc => List.mem_takeWhile_imp hc,
    fun c hc => List.mem_takeWhile_imp (List.mem_reverse.mp hc), ?_⟩
  unfold pyStrip
  conv_lhs => rw [← List.takeWhile_append_dropWhile Char.isWhitespace s]
  rw [List.append_assoc]
  congr 1
  conv_lhs =>
    rw [← List.reverse_reverse (s.dropWhile Char.isWhitespace),
      ← List.takeWhile_append_dropWhile Char.isWhitespace
        (s.dropWhile Char.isWhitespace).reverse,
      List.reverse_append]

theorem infix_of_nonws_left (p : PyStr)
    (hp : ∀ c ∈ p, c.isWhitespace = false) :
    ∀ (w m : PyStr), (∀ c ∈ w, c.isWhitespace = true) →
      p <:+: w ++ m → p <:+: m
  | [], m, _, h => h
  | c :: w, m, hw, h => by
    rw [List.cons_append, List.infix_cons_iff] at h
    rcases h with h | h
    · match p, hp, h with
      | [], _, _ => exact List.nil_infix
      | p0 :: pt, hp, h =>
        rw [List.cons_prefix_cons] at h
        have hws := hp p0 (List.mem_cons_self p0 pt)
        rw [h.1] at hws
        rw [hw c (List.mem_cons_self c w)] at hws
        exact absurd hws (by simp)
    · exact infix_of_nonws_left p hp w m
        (fun d hd => hw d (List.mem_cons_of_mem _ hd)) h

theorem infix_of_nonws_right (p m w : PyStr)
    (hp : ∀ c ∈ p, c.isWhitespace = false)
    (hw : ∀ c ∈ w, c.isWhitespace = true) (h : p <:+: m ++ w) : p <:+: m := by
  rw [← List.reverse_infix] at h ⊢
  rw [List.reverse_append] at h
  exact infix_of_nonws_left p.reverse
    (fun c hc => hp c (List.mem_reverse.mp hc)) w.reverse m.reverse
    (fun c hc => hw c (List.mem_reverse.mp hc)) h

/-- Stripping surrounding whitespace before uppercasing does not change
whether `"YES"` occurs: the characters of `"YES"` are not whitespace and
uppercasing fixes whitespace, so an occurrence never overlaps the
stripped runs. -/
theorem contains_yes_strip (c : PyStr) :
    pyContains (pyUpper (pyStrip c)) ['Y', 'E', 'S'] =
      pyContains (pyUpper c) ['Y', 'E', 'S'] := by
  obtain ⟨w₁, w₂, h1, h2, hdec⟩ := strip_decomp c
  have hup : pyUpper c = w₁ ++ pyUpper (pyStrip c) ++ w₂ := by
    conv_lhs => rw [hdec]
    unfold pyUpper
    rw [List.map_append, List.map_append]
    rw [List.map_congr_left (fun a ha => toUpper_of_whitespace a (h1 a ha)),
      List.map_congr_left (fun a ha => toUpper_of_whitespace a (h2 a ha))]
    simp
  have hyes : ∀ d ∈ (['Y', 'E', 'S'] : PyStr), d.isWhitespace = false := by
    decide
  unfold pyContains
  rw [decide_eq_decide, hup]
  constructor
  · intro h
    exact h.trans (List.infix_append w₁ (pyUpper (pyStrip c)) w₂)
  · intro h
    rw [List.append_assoc] at h
    exact infix_of_nonws_right _ _ _ hyes h2
      (infix_of_nonws_left _ hyes w₁ _ h1 h)

/-- C2: on a query without URLs the router leaves `direct_scrape` false
and sets `needs_search` to true exactly when the classifier reply's
content contains `"YES"` case-insensitively; any other reply — and any
exception from the model call — yields `needs_search = false`. -/
theorem router_no_url_spec (q : PyStr) (r : LLMReply)
    (h : findUrls q = []) :
    (router_node q r).direct_scrape = false ∧
    (router_node q r).needs_search =
      (match r with
       | .ok content => containsYesCI content
       | .error _ => false) := by
  simp only [router_node, h, List.isEmpty_nil, if_true]
  refine ⟨trivial, ?_⟩
  match r with
  | .error _ => rfl
  | .ok content =>
    show should_search (Except.ok content) = containsYesCI content
    unfold should_search containsYesCI
    exact contains_yes_strip content

/-- Witness for C2 at a concrete query and reply. -/
theorem router_no_url_spec_witness :
    (router_node "tell me about loops".toList
        (Except.ok " yes, search".toList)).direct_scrape = false ∧
    (router_node "tell me about loops".toList
        (Except.ok " yes, search".toList)).needs_search =
      containsYesCI " yes, search".toList :=
  router_no_url_spec "tell me about loops".toList
    (Except.ok " yes, search".toList) (by decide)

/-- C1: a query in which the URL regex finds at least one match is routed
directly to scraping: `urls_to_scrape` is exactly the list of regex
matches in order of first appearance, `needs_search` is false,
`direct_scrape` is true — and the outcome does not depend on the
classifier reply `r`, so the LLM call is never consulted. -/
theorem router_direct_url_spec (q : PyStr) (r : LLMReply)
    (h : findUrls q ≠ []) :
    router_node q r =
      { urls_to_scrape := some (findUrls q)
        needs_search := false
        direct_scrape := true } := by
  have hne : (findUrls q).isEmpty = false := by
    rw [List.isEmpty_eq_false]
    exact h
  simp [router_node, hne]

/-- Witness for C1 at a concrete query holding one URL. -/
theorem router_direct_url_spec_witness :
    findUrls "see https://example.com/docs please".toList =
      ["https://example.com/docs".toList] ∧
    router_node "see https://example.com/docs please".toList
        (Except.error ()) =
      { urls_to_scrape := some ["https://example.com/docs".toList]
        needs_search := false
        direct_scrape := true } := by
  have hfind : findUrls "see https://example.com/docs please".toList =
      ["https://example.com/docs".toList] := by decide
  exact ⟨hfind, hfind ▸ router_direct_url_spec _ (Except.error ())
    (by decide)⟩

theorem collectBatch_inv (rl mp : Nat) :
    ∀ (queue : List (PyStr × Nat)) (visited : List PyStr)
      (batch : List (PyStr × Nat)),
      (batch.map Prod.fst).Nodup →
      (∀ u ∈ batch.map Prod.fst, u ∈ visited) →
      ((collectBatch rl mp queue visited batch).1.map Prod.fst).Nodup ∧
      (∀ u ∈ (collectBatch rl mp queue visited batch).1.map Prod.fst,
        u ∈ (collectBatch rl mp queue visited batch).2.1) ∧
      (∀ x ∈ visited, x ∈ (collectBatch rl mp queue visited batch).2.1) ∧
      (∀ u ∈ (collectBatch rl mp queue visited batch).1.map Prod.fst,
        u ∉ batch.map Prod.fst → u ∉ visited) ∧
      (rl + batch.length ≤ mp →
        rl + (collectBatch rl mp queue visited batch).1.length ≤ mp)
  | [], visited, batch => by
    intro hnd hin
    simp only [collectBatch]
    exact ⟨hnd, hin, fun x hx => hx, fun v hv hnb => absurd hv hnb,
      fun h => h⟩
  | (u, d) :: rest, visited, batch => by
    intro hnd hin
    simp only [collectBatch]
    split
    · rename_i hguard
      split
      · rename_i hu
        exact collectBatch_inv rl mp rest visited batch hnd hin
      · rename_i hu
        have hnd' : ((batch ++ [(u, d)]).map Prod.fst).Nodup := by
          rw [List.map_append, List.nodup_append]
          refine ⟨hnd, by simp, ?_⟩
          intro a ha hb
          simp only [List.map_cons, List.map_nil, List.mem_singleton] at hb
          subst hb
          exact hu (hin a ha)
        have hin' : ∀ v ∈ (batch ++ [(u, d)]).map Prod.fst,
            v ∈ u :: visited := by
          intro v hv
          rw [List.map_append, List.mem_append] at hv
          rcases hv with hv | hv
          · exact List.mem_cons_of_mem _ (hin v hv)
          · simp only [List.map_cons, List.map_nil,
              List.mem_singleton] at hv
            rw [hv]
            exact List.mem_cons_self _ _
        obtain ⟨c1, c2, c3, c4, c5⟩ := collectBatch_inv rl mp rest
          (u :: visited) (batch ++ [(u, d)]) hnd' hin'
        refine ⟨c1, c2, fun x hx => c3 x (List.mem_cons_of_mem _ hx),
          ?_, ?_⟩
        · intro v hv hvb
          by_cases hveq : v = u
          · subst hveq
            exact hu
          · have hvb' : v ∉ (batch ++ [(u, d)]).map Prod.fst := by
              rw [List.map_append, List.mem_append]
              rintro (hb | hb)
              · exact hvb hb
              · simp only [List.map_cons, List.map_nil,
                  List.mem_singleton] at hb
                exact hveq hb
            have h4 := c4 v hv hvb'
            intro hvis
            exact h4 (List.mem_cons_of_mem _ hvis)
        · intro _
          refine c5 ?_
          rw [List.length_append]
          simp only [List.length_cons, List.length_nil]
          omega
    · exact ⟨hnd, hin, fun x hx => hx, fun v hv hnb => absurd hv hnb,
        fun h => h⟩

/-- The invariant of the crawl loop: the result count stays within
`maxPages`, and the ghost log of fetched URLs stays duplicate-free (every
logged URL is in the visited set, and newly batched URLs are fresh). -/
theorem crawlLoop_inv (fetch : FetchOracle) (maxDepth maxPages : Nat) :
    ∀ (k j : Nat) (queue : List (PyStr × Nat)) (visited : List PyStr)
      (results : List ScrapedContent) (log : List PyStr),
      maxPages - results.length ≤ k → queue.length ≤ j →
      results.length ≤ maxPages → log.Nodup →
      (∀ u ∈ log, u ∈ visited) →
      (crawlLoop fetch maxDepth maxPages queue visited results
          log).1.length ≤ maxPages ∧
      (crawlLoop fetch maxDepth maxPages queue visited results
          log).2.Nodup := by
  intro k
  induction k with
  | zero =>
    intro j queue visited results log hk _ hres hnd _
    rw [crawlLoop, if_pos (Or.inr (by omega))]
    exact ⟨hres, hnd⟩
  | succ k ihk =>
    intro j
    induction j with
    | zero =>
      intro queue visited results log _ hj hres hnd _
      have hqe : queue = [] := by
        cases queue with
        | nil => rfl
        | cons a l => simp at hj
      rw [crawlLoop, if_pos (Or.inl (by rw [hqe]; rfl))]
      exact ⟨hres, hnd⟩
    | succ j ihj =>
      intro queue visited results log hk hj hres hnd hsub
      by_cases hguard : queue.isEmpty ∨ maxPages ≤ results.length
      · rw [crawlLoop, if_pos hguard]
        exact ⟨hres, hnd⟩
      · rw [crawlLoop, if_neg hguard]
        rw [not_or, Nat.not_le] at hguard
        obtain ⟨c1, c2, c3, c4, c5⟩ := collectBatch_inv results.length
          maxPages queue visited [] (by simp) (by simp)
        by_cases hbatch :
            (collectBatch results.length maxPages queue visited []).1.isEmpty
        · rw [if_pos hbatch]
          exact ⟨hres, hnd⟩
        · rw [if_neg hbatch]
          rw [Bool.not_eq_true, List.isEmpty_eq_false] at hbatch
          have hreslen : (results ++
              (processBatch fetch maxDepth
                (collectBatch results.length maxPages queue visited []).2.1
                (collectBatch results.length maxPages queue visited
                  []).1).1).length ≤ maxPages := by
            rw [List.length_append]
            have hpb := processBatch_len fetch maxDepth
              (collectBatch results.length maxPages queue visited []).2.1
              (collectBatch results.length maxPages queue visited []).1
            have hc5 := c5 (by simpa using hres)
            omega
          have hnd' : (log ++
              ((collectBatch results.length maxPages queue visited
                []).1.map Prod.fst)).Nodup := by
            rw [List.nodup_append]
            refine ⟨hnd, c1, ?_⟩
            intro a ha hb
            exact (c4 a hb (by simp)) (hsub a ha)
          have hsub' : ∀ u ∈ log ++
              ((collectBatch results.length maxPages queue visited
                []).1.map Prod.fst),
              u ∈ (collectBatch results.length maxPages queue visited
                []).2.1 := by
            intro v hv
            rw [List.mem_append] at hv
            rcases hv with hv | hv
            · exact c3 v (hsub v hv)
            · exact c2 v hv
          by_cases hpe : (processBatch fetch maxDepth
              (collectBatch results.length maxPages queue visited []).2.1
              (collectBatch results.length maxPages queue visited
                []).1).1 = []
          · have hq2 := processBatch_nil_of_results_nil fetch maxDepth
              (collectBatch results.length maxPages queue visited []).2.1
              (collectBatch results.length maxPages queue visited []).1 hpe
            have hql := collectBatch_queue_len results.length maxPages
              queue visited []
            have hb1 : 1 ≤ (collectBatch results.length maxPages queue
                visited []).1.length := by
              cases hcb1 : (collectBatch results.length maxPages queue
                  visited []).1 with
              | nil => exact absurd hcb1 hbatch
              | cons a l => simp
            refine ihj _ _ _ _ ?_ ?_ ?_ hnd' hsub'
            · rw [hpe, List.append_nil]
              omega
            · rw [hq2, List.append_nil]
              simp only [List.length_nil] at hql
              omega
            · rw [hpe, List.append_nil]
              omega
          · have hp1 : 1 ≤ (processBatch fetch maxDepth
                (collectBatch results.length maxPages queue visited []).2.1
                (collectBatch results.length maxPages queue visited
                  []).1).1.length := by
              cases hpp : (processBatch fetch maxDepth
                  (collectBatch results.length maxPages queue visited
                    []).2.1
                  (collectBatch results.length maxPages queue visited
                    []).1).1 with
              | nil => exact absurd hpp hpe
              | cons a l => simp
            refine ihk _ _ _ _ _ ?_ (Nat.le_refl _) hreslen hnd' hsub'
            rw [List.length_append]
            omega

/-- C3: `crawl` is a total function — the loop terminates for every
start URL, depth and page budget (the definition is accepted by
well-founded recursion on `(max_pages - len(results), len(queue))`, the
argument in `crawlLoop`'s doc comment, even when the fetched link graph
is cyclic) — and it returns at most `max_pages` results, with the ghost
log of URLs handed to `scrape_url` duplicate-free: a URL in the visited
set is never fetched again. -/
theorem crawl_spec (fetch : FetchOracle) (start_url : PyStr)
    (maxDepth maxPages : Nat) :
    (crawl fetch start_url maxDepth maxPages).length ≤ maxPages ∧
    (crawlWithLog fetch start_url maxDepth maxPages).2.Nodup := by
  have h := crawlLoop_inv fetch maxDepth maxPages maxPages 1
    [(start_url, 0)] [] [] [] (by omega) (by simp) (by simp) (by simp)
    (by simp)
  exact h

end Mask
